import Mathlib

/-!
Shallow embedding of the `awful-proof-assistant` repository (TypeScript):
a minimal proof checker for a dependently typed lambda calculus.

The definitions below are translated from `src/index.ts` (kernel, type
checker, resolver, driver) and `src/unnamed/part_000` (lexer/parser types).
TypeScript exceptions are modelled as an explicit error result; the
unbounded recursion of `simp_value` is modelled with an explicit fuel
parameter (fuel exhaustion is kept distinct from a thrown error).
Definitions suffixed `_spec` or named `shift_all` / `shift_free` follow the
wording of the specification / claims, for comparison against the source
translations.
-/

/-- Kernel / surface expression type, from the `Expr` union in
`src/unnamed/part_000` lines 1-32, plus the `{ type: "sorry" }` sentinel
value that `src/index.ts` line 16 stores as the type of `SORRY`
(constructor `sry` here). -/
inductive Expr where
  | pi (head tail : Expr)
  | lambda (head tail : Expr)
  | app (fn value : Expr)
  | ident (s : String)
  | error
  | ref (index : Nat)
  | binding (id : String) (ty : Expr)
  | sry
deriving DecidableEq

/-- Result of a TypeScript computation that may throw, or (in our model)
run out of fuel while modelling unbounded recursion. -/
inductive Res (α : Type) where
  | ok (val : α)
  | err
  | fuelOut
deriving DecidableEq

/-- Sequencing of fallible computations (exception propagation). -/
def Res.bind {α β : Type} : Res α → (α → Res β) → Res β
  | .ok a, f => f a
  | .err, _ => .err
  | .fuelOut, _ => .fuelOut

/-- An entry of the global environment: `{ ty, def }` in `src/index.ts`
line 6 (`def` is `dfn` here since `def` is a Lean keyword). -/
structure DefEntry where
  ty : Expr
  dfn : Option Expr
deriving DecidableEq

/-- Global environment. The TypeScript object keyed by strings is modelled
as an association list; insertion prepends, lookup takes the first match,
which reproduces the object's lookup-after-overwrite behaviour. -/
def Defs := List (String × DefEntry)

instance : DecidableEq Defs := by unfold Defs; infer_instance

/-- Lookup of `defs[name]`. -/
def lookupDef : Defs → String → Option DefEntry
  | [], _ => none
  | (k, v) :: rest, n => if k = n then some v else lookupDef rest n

/-- Assignment `defs[name] = entry`. -/
def insertDef (d : Defs) (k : String) (v : DefEntry) : Defs := (k, v) :: d

/-- The two seeded globals `Type` and `SORRY`, `src/index.ts` lines 8-16. -/
def defs0 : Defs := [("SORRY", ⟨.sry, none⟩), ("Type", ⟨.error, none⟩)]

/-- `update_refs` from `src/index.ts` lines 59-77: adds `inc` to the index
of every `Ref`, recursing through `application` and `pi` nodes only; every
other node (including `lambda`) is returned unchanged by the final
`else` branch. -/
def update_refs : Expr → Nat → Expr
  | .ref i, inc => .ref (i + inc)
  | .app f v, inc => .app (update_refs f inc) (update_refs v inc)
  | .pi h t, inc => .pi (update_refs h inc) (update_refs t inc)
  | e, _ => e

/-- `replace` from `src/index.ts` lines 83-115 (substitution). A `lambda`,
`binding`, `error` or `sorry` node in the tail hits the final `else`
branch, which throws (`none` here). -/
def replace : Expr → Expr → Nat → Option Expr
  | .ref i, value, depth =>
    if i = depth then some (update_refs value (i - 1))
    else if depth < i then some (.ref (i - 1))
    else some (.ref i)
  | .app f v, value, depth =>
    (replace f value depth).bind fun f' =>
      (replace v value depth).bind fun v' => some (.app f' v')
  | .pi h t, value, depth =>
    (replace h value depth).bind fun h' =>
      (replace t value (depth + 1)).bind fun t' => some (.pi h' t')
  | .ident n, _, _ => some (.ident n)
  | _, _, _ => none

/-- `simp_value` from `src/index.ts` lines 133-159 (call-by-value
normalisation), with fuel: the TypeScript recursion is unbounded, so each
recursive call consumes one unit of fuel and exhaustion yields `fuelOut`.
Note the beta test looks at the unsimplified function position, exactly as
`expr.fun.type === "lambda"` does on line 135. -/
def simp_fuel : Nat → Expr → Res Expr
  | 0, _ => .fuelOut
  | fuel + 1, .app (.lambda _ tl) v =>
    Res.bind (simp_fuel fuel v) fun v' =>
      match replace tl v' 1 with
      | some r => simp_fuel fuel r
      | none => .err
  | fuel + 1, .app f v =>
    Res.bind (simp_fuel fuel f) fun f' =>
      Res.bind (simp_fuel fuel v) fun v' => .ok (.app f' v')
  | fuel + 1, .lambda h t =>
    Res.bind (simp_fuel fuel h) fun h' =>
      Res.bind (simp_fuel fuel t) fun t' => .ok (.lambda h' t')
  | fuel + 1, .pi h t =>
    Res.bind (simp_fuel fuel h) fun h' =>
      Res.bind (simp_fuel fuel t) fun t' => .ok (.pi h' t')
  | _ + 1, e => .ok e

/-- `deep_eq` from `src/index.ts` lines 259-285 (structural equality).
The trailing `else` throws on `error`, `binding` and `sorry` nodes in the
first argument, hence the `Option`. Short-circuiting of `&&` is preserved:
the second component is not compared when the first differs. -/
def deep_eq : Expr → Expr → Option Bool
  | .app f v, .app f' v' =>
    (deep_eq f f').bind fun r => if r then deep_eq v v' else some false
  | .app _ _, _ => some false
  | .lambda h t, .lambda h' t' =>
    (deep_eq h h').bind fun r => if r then deep_eq t t' else some false
  | .lambda _ _, _ => some false
  | .pi h t, .pi h' t' =>
    (deep_eq h h').bind fun r => if r then deep_eq t t' else some false
  | .pi _ _, _ => some false
  | .ident n, b => some (match b with | .ident m => decide (n = m) | _ => false)
  | .ref i, b => some (match b with | .ref j => decide (i = j) | _ => false)
  | _, _ => none

/-- The `ref` branch of `type_of`, `src/index.ts` lines 39-49: the stack
entry `refs[refs.length - i]` (our list carries the most recently pushed
head first, so this is position `i - 1`); an out-of-range access yields
`undefined`, which is falsy, so the `Ref` itself is returned. In-range
entries are expression objects, always truthy. -/
def ref_type (refs : List Expr) (i : Nat) : Expr :=
  match i with
  | 0 => .ref 0
  | n + 1 =>
    match refs.get? n with
    | some r => update_refs r (n + 1)
    | none => .ref (n + 1)

/-- `type_of` from `src/index.ts` lines 18-57, with the bodies of
`apply_type` (lines 161-179) and `member_of` (lines 185-192) inlined at
the `application` branch so that the recursion is structural on the
expression; the wrappers `apply_type` and `member_of` below are proved to
agree with this inlining. `fuel` is only consumed by `simp_fuel`. -/
def type_of (fuel : Nat) (defs : Defs) : Expr → List Expr → Res Expr
  | .ident n, _ =>
    match lookupDef defs n with
    | some d => .ok d.ty
    | none => .err
  | .lambda h t, refs =>
    Res.bind (type_of fuel defs t (h :: refs)) fun tt => .ok (.pi h tt)
  | .pi _ _, _ => .ok (.ident "Type")
  | .ref i, refs => .ok (ref_type refs i)
  | .app f v, refs =>
    match type_of fuel defs f refs with
    | .ok (.pi head tl) =>
      (match type_of fuel defs v refs with
       | .ok vty =>
         (match deep_eq vty head with
          | some true =>
            (match replace tl v 1 with
             | some r => simp_fuel fuel r
             | none => .err)
          | some false => .err
          | none => .err)
       | .err => .err
       | .fuelOut => .fuelOut)
    | .ok .sry => .ok v
    | .ok _ => .err
    | .err => .err
    | .fuelOut => .fuelOut
  | _, _ => .err

/-- `member_of` from `src/index.ts` lines 185-192: syntactic equality of
the synthesised type against the expected type. -/
def member_of (fuel : Nat) (defs : Defs) (e ty : Expr) (refs : List Expr) :
    Res Bool :=
  Res.bind (type_of fuel defs e refs) fun t =>
    match deep_eq t ty with
    | some b => .ok b
    | none => .err

/-- `apply_type` from `src/index.ts` lines 161-179: dependent application
of a function type, with the `SORRY` escape hatch. -/
def apply_type (fuel : Nat) (defs : Defs) (fty v : Expr) (refs : List Expr) :
    Res Expr :=
  match fty with
  | .pi head tl =>
    Res.bind (member_of fuel defs v head refs) fun b =>
      if b then
        match replace tl v 1 with
        | some r => simp_fuel fuel r
        | none => .err
      else .err
  | .sry => .ok v
  | _ => .err

/-- A parsed declaration, the `Statement` type of `src/unnamed/part_000`
lines 34-39. -/
structure Statement where
  name : String
  ty : Expr
  dfn : Option Expr

/-- The backwards scan of the `bound` stack in `rename`
(`src/index.ts` lines 233-240): first match from the innermost binder,
1-based; `null` entries never match. Our list carries the innermost
binder first. -/
def findBound (bound : List (Option String)) (n : String) : Option Nat :=
  match bound with
  | [] => none
  | b :: rest =>
    if b = some n then some 1 else (findBound rest n).map (· + 1)

/-- `rename` from `src/index.ts` lines 195-257 (resolver / de Bruijn
lifter): replaces bound identifiers by `Ref` indices, inlines globals with
a body, keeps axiomatic globals as identifiers, and throws on anything
else. -/
def rename (defs : Defs) : Expr → List (Option String) → Res Expr
  | .app f v, bound =>
    Res.bind (rename defs f bound) fun f' =>
      Res.bind (rename defs v bound) fun v' => .ok (.app f' v')
  | .lambda (.binding id ty) t, bound =>
    Res.bind (rename defs ty bound) fun h' =>
      Res.bind (rename defs t (some id :: bound)) fun t' =>
        .ok (.lambda h' t')
  | .lambda h t, bound =>
    Res.bind (rename defs h bound) fun h' =>
      Res.bind (rename defs t (none :: bound)) fun t' => .ok (.lambda h' t')
  | .pi (.binding id ty) t, bound =>
    Res.bind (rename defs ty bound) fun h' =>
      Res.bind (rename defs t (some id :: bound)) fun t' => .ok (.pi h' t')
  | .pi h t, bound =>
    Res.bind (rename defs h bound) fun h' =>
      Res.bind (rename defs t (none :: bound)) fun t' => .ok (.pi h' t')
  | .ident n, bound =>
    match findBound bound n with
    | some i => .ok (.ref i)
    | none =>
      match lookupDef defs n with
      | some d =>
        match d.dfn with
        | some b => .ok b
        | none => .ok (.ident n)
      | none => .err
  | _, _ => .err

/-- One iteration of the driver loop, `src/index.ts` lines 287-308:
resolve the type, resolve the body if present, check membership if a body
is present, then extend the environment. -/
def check_stmt (fuel : Nat) (defs : Defs) (s : Statement) : Res Defs :=
  Res.bind (rename defs s.ty []) fun ty =>
    match s.dfn with
    | none => .ok (insertDef defs s.name ⟨ty, none⟩)
    | some d =>
      Res.bind (rename defs d []) fun d' =>
        Res.bind (member_of fuel defs d' ty []) fun b =>
          if b then .ok (insertDef defs s.name ⟨ty, some d'⟩) else .err

/-- The whole driver loop over the parsed declarations. After the loop the
program in `src/index.ts` simply ends: the imported `write` function is
never invoked, so the final environment is the complete observable
outcome. -/
def run_driver (fuel : Nat) (defs : Defs) : List Statement → Res Defs
  | [] => .ok defs
  | s :: rest => Res.bind (check_stmt fuel defs s) fun d => run_driver fuel d rest

/-- Lookup of a name in the environment produced by running the driver
from the seeded environment. -/
def finalLookup (fuel : Nat) (prog : List Statement) (n : String) :
    Option DefEntry :=
  match run_driver fuel defs0 prog with
  | .ok d => lookupDef d n
  | _ => none

/-- The two-declaration program `Nat : Type; zero : Nat := SORRY Nat;` of
the specification's scenario 6, already parsed. -/
def prog5 : List Statement :=
  [⟨"Nat", .ident "Type", none⟩,
   ⟨"zero", .ident "Nat", some (.app (.ident "SORRY") (.ident "Nat"))⟩]

/-- The identifier character class `[A-Za-z0-9._]` of the lexer,
`src/unnamed/part_000` line 48. -/
def isIdentChar (c : Char) : Bool :=
  c.isAlpha || c.isDigit || c == '.' || c == '_'

/-- The whitespace class `[\t\r\n ]` of the lexer, line 54. -/
def isWsChar (c : Char) : Bool :=
  c == '\t' || c == '\r' || c == '\n' || c == ' '

/-- Length of the longest match of a character class at the cursor
(the semantics of a sticky `/[...]+/y` regex, minus the non-empty
requirement, which the caller checks). -/
def takeWhileLen (p : Char → Bool) : List Char → Nat
  | [] => 0
  | c :: rest => if p c then takeWhileLen p rest + 1 else 0

/-- Number of characters matched after the opening `/*` by the body-and-
close part of the sticky block-comment regex
`([^\*]|\*[^\/])*\*\/` of `src/unnamed/part_000` line 71. The two
alternatives of the starred group are mutually exclusive (one requires a
non-star, the other a star), and whenever the group can iterate the
closing `\*\/` cannot match at the same position, so the regex engine's
greedy backtracking search is equivalent to this deterministic scan:
a `*` followed by `/` closes the comment; a `*` followed by any other
character is skipped together with that character; any other character is
skipped alone; reaching the end of input fails. -/
def blockBody : List Char → Option Nat
  | [] => none
  | c :: rest =>
    if c = '*' then
      match rest with
      | [] => none
      | c2 :: rest2 =>
        if c2 = '/' then some 2 else (blockBody rest2).map (· + 2)
    else (blockBody rest).map (· + 1)

/-- Token type of `src/unnamed/part_000` lines 41-45 (comment text and
identifier spellings beyond the payload we need are dropped). -/
inductive Token where
  | tIdent (s : String)
  | tPunct (s : String)
  | tWs
  | tComment
deriving DecidableEq

/-- The exact-match punctuation list in priority order, line 81. -/
def opsList : List String := ["=>", "->", ":=", "(", ")", ":", ";"]

/-- The `for (const op of ops)` loop of lines 82-91. -/
def findOp (cs : List Char) : List String → Option (String × Nat)
  | [] => none
  | op :: rest =>
    if op.data.isPrefixOf cs then some (op, op.length) else findOp cs rest

/-- `lex` from `src/unnamed/part_000` lines 47-94 at a cursor position,
modelled on the suffix of the input starting at the cursor; returns the
token and the number of characters consumed, or `none` where the
TypeScript throws "lexer consumed no input". -/
def lex (cs : List Char) : Option (Token × Nat) :=
  let idLen := takeWhileLen isIdentChar cs
  if idLen ≠ 0 then some (.tIdent (String.mk (cs.take idLen)), idLen)
  else
    let wsLen := takeWhileLen isWsChar cs
    if wsLen ≠ 0 then some (.tWs, wsLen)
    else if ['/', '/'].isPrefixOf cs then
      some (.tComment, 2 + takeWhileLen (fun c => c != '\n') (cs.drop 2))
    else if ['/', '*'].isPrefixOf cs then
      match blockBody (cs.drop 2) with
      | some n => some (.tComment, 2 + n)
      | none => (findOp cs opsList).map fun p => (.tPunct p.1, p.2)
    else (findOp cs opsList).map fun p => (.tPunct p.1, p.2)

/-- Whether the character list contains an occurrence of `*/`. -/
def hasClose : List Char → Bool
  | '*' :: '/' :: _ => true
  | _ :: rest => hasClose rest
  | [] => false

/-- Index of the `*` of the first occurrence of `*/`. -/
def firstClose : List Char → Option Nat
  | '*' :: '/' :: _ => some 0
  | _ :: rest => (firstClose rest).map (· + 1)
  | [] => none

/-- Modelled from the claims' wording ("every Ref index in it increased"):
a shift that adds `k` to the index of every `Ref` anywhere in the
expression, traversing Lambda nodes as well as App and Pi, with no depth
adjustment. Compare with `update_refs`, which leaves Lambda nodes
untouched. -/
def shift_all : Expr → Nat → Expr
  | .ref i, k => .ref (i + k)
  | .app f v, k => .app (shift_all f k) (shift_all v k)
  | .pi h t, k => .pi (shift_all h k) (shift_all t k)
  | .lambda h t, k => .lambda (shift_all h k) (shift_all t k)
  | e, _ => e

/-- Modelled from claim C2's wording ("every free Ref index inside that
entry increased by i"): a capture-aware shift that adds `inc` only to
`Ref` indices pointing outside the expression, tracking the number of
binders (`Pi`/`Lambda` tails) crossed. -/
def shift_free (e : Expr) (inc : Nat) (depth : Nat) : Expr :=
  match e with
  | .ref j => if depth < j then .ref (j + inc) else .ref j
  | .app f v => .app (shift_free f inc depth) (shift_free v inc depth)
  | .pi h t => .pi (shift_free h inc depth) (shift_free t inc (depth + 1))
  | .lambda h t =>
    .lambda (shift_free h inc depth) (shift_free t inc (depth + 1))
  | e => e

/-- Modelled from claim C1's wording: substitution following exactly the
stated rules, where the substituted value has *every* `Ref` index in it
increased by `i - 1` (`shift_all`). -/
def replace_spec : Expr → Expr → Nat → Option Expr
  | .ref i, value, depth =>
    some (if i = depth then shift_all value (i - 1)
          else if depth < i then .ref (i - 1) else .ref i)
  | .app f v, value, depth =>
    (replace_spec f value depth).bind fun f' =>
      (replace_spec v value depth).bind fun v' => some (.app f' v')
  | .pi h t, value, depth =>
    (replace_spec h value depth).bind fun h' =>
      (replace_spec t value (depth + 1)).bind fun t' => some (.pi h' t')
  | .ident n, _, _ => some (.ident n)
  | _, _, _ => none

/-- Claim C1's rules amended to use the shift the source actually
performs (`update_refs`, which does not enter Lambda nodes). -/
def replace_spec_nl : Expr → Expr → Nat → Option Expr
  | .ref i, value, depth =>
    some (if i = depth then update_refs value (i - 1)
          else if depth < i then .ref (i - 1) else .ref i)
  | .app f v, value, depth =>
    (replace_spec_nl f value depth).bind fun f' =>
      (replace_spec_nl v value depth).bind fun v' => some (.app f' v')
  | .pi h t, value, depth =>
    (replace_spec_nl h value depth).bind fun h' =>
      (replace_spec_nl t value (depth + 1)).bind fun t' => some (.pi h' t')
  | .ident n, _, _ => some (.ident n)
  | _, _, _ => none

/-- Whether a `lambda` node occurs anywhere in the expression. -/
def containsLambda : Expr → Bool
  | .lambda _ _ => true
  | .app f v => containsLambda f || containsLambda v
  | .pi h t => containsLambda h || containsLambda t
  | .binding _ t => containsLambda t
  | _ => false

/-- Whether the expression contains no beta-redex, i.e. no application
whose function position is a lambda. -/
def noRedex : Expr → Bool
  | .app (.lambda _ _) _ => false
  | .app f v => noRedex f && noRedex v
  | .lambda h t => noRedex h && noRedex t
  | .pi h t => noRedex h && noRedex t
  | _ => true

/-! ## Helper lemmas -/

/-- Every expression has positive size. -/
theorem expr_one_le_sizeOf : ∀ e : Expr, 1 ≤ sizeOf e := by
  intro e
  cases e <;> simp <;> omega

/-- `replace` throws as soon as any `lambda` node is reachable in the
tail being substituted into. -/
theorem replace_none_of_containsLambda :
    ∀ (tail value : Expr) (depth : Nat),
      containsLambda tail = true → replace tail value depth = none := by
  intro tail
  induction tail with
  | pi h t ihh iht =>
    intro value depth hc
    simp only [containsLambda, Bool.or_eq_true] at hc
    rcases hc with hc | hc
    · simp [replace, ihh value depth hc]
    · cases hh : replace h value depth <;>
        simp [replace, hh, iht value (depth + 1) hc]
  | lambda h t ihh iht => intro value depth _; rfl
  | app f v ihf ihv =>
    intro value depth hc
    simp only [containsLambda, Bool.or_eq_true] at hc
    rcases hc with hc | hc
    · simp [replace, ihf value depth hc]
    · cases hh : replace f value depth <;>
        simp [replace, hh, ihv value depth hc]
  | ident n => intro value depth hc; simp [containsLambda] at hc
  | error => intro value depth hc; simp [containsLambda] at hc
  | ref i => intro value depth hc; simp [containsLambda] at hc
  | binding id ty _ => intro value depth _; rfl
  | sry => intro value depth hc; simp [containsLambda] at hc

/-- A redex-free expression is a fixed point of `simp_fuel`, for any fuel
at least its size (the fuel is only a recursion bound; no beta step is
taken on a redex-free term). -/
theorem simp_fuel_of_noRedex :
    ∀ (e : Expr) (fuel : Nat), noRedex e = true → sizeOf e ≤ fuel →
      simp_fuel fuel e = .ok e := by
  intro e
  induction e with
  | pi h t ihh iht =>
    intro fuel hnr hsz
    cases fuel with
    | zero => exact absurd hsz (by have := expr_one_le_sizeOf (.pi h t); omega)
    | succ m =>
      simp only [noRedex, Bool.and_eq_true] at hnr
      simp only [Expr.pi.sizeOf_spec] at hsz
      simp [simp_fuel, ihh m hnr.1 (by omega), iht m hnr.2 (by omega), Res.bind]
  | lambda h t ihh iht =>
    intro fuel hnr hsz
    cases fuel with
    | zero =>
      exact absurd hsz (by have := expr_one_le_sizeOf (.lambda h t); omega)
    | succ m =>
      simp only [noRedex, Bool.and_eq_true] at hnr
      simp only [Expr.lambda.sizeOf_spec] at hsz
      simp [simp_fuel, ihh m hnr.1 (by omega), iht m hnr.2 (by omega), Res.bind]
  | app f v ihf ihv =>
    intro fuel hnr hsz
    cases fuel with
    | zero => exact absurd hsz (by have := expr_one_le_sizeOf (.app f v); omega)
    | succ m =>
      simp only [Expr.app.sizeOf_spec] at hsz
      cases f with
      | lambda h t => simp [noRedex] at hnr
      | pi a b =>
        have hs : noRedex (Expr.pi a b) = true ∧ noRedex v = true := by
          have hx : (noRedex (Expr.pi a b) && noRedex v) = true := hnr
          simp only [Bool.and_eq_true] at hx
          exact hx
        simp [simp_fuel, ihf m hs.1 (by omega), ihv m hs.2 (by omega), Res.bind]
      | app a b =>
        have hs : noRedex (Expr.app a b) = true ∧ noRedex v = true := by
          have hx : (noRedex (Expr.app a b) && noRedex v) = true := hnr
          simp only [Bool.and_eq_true] at hx
          exact hx
        simp [simp_fuel, ihf m hs.1 (by omega), ihv m hs.2 (by omega), Res.bind]
      | ident n =>
        have hs : noRedex (Expr.ident n) = true ∧ noRedex v = true := by
          have hx : (noRedex (Expr.ident n) && noRedex v) = true := hnr
          simp only [Bool.and_eq_true] at hx
          exact hx
        simp [simp_fuel, ihf m hs.1 (by omega), ihv m hs.2 (by omega), Res.bind]
      | error =>
        have hs : noRedex Expr.error = true ∧ noRedex v = true := by
          have hx : (noRedex Expr.error && noRedex v) = true := hnr
          simp only [Bool.and_eq_true] at hx
          exact hx
        simp [simp_fuel, ihf m hs.1 (by omega), ihv m hs.2 (by omega), Res.bind]
      | ref i =>
        have hs : noRedex (Expr.ref i) = true ∧ noRedex v = true := by
          have hx : (noRedex (Expr.ref i) && noRedex v) = true := hnr
          simp only [Bool.and_eq_true] at hx
          exact hx
        simp [simp_fuel, ihf m hs.1 (by omega), ihv m hs.2 (by omega), Res.bind]
      | binding id ty =>
        have hs : noRedex (Expr.binding id ty) = true ∧ noRedex v = true := by
          have hx : (noRedex (Expr.binding id ty) && noRedex v) = true := hnr
          simp only [Bool.and_eq_true] at hx
          exact hx
        simp [simp_fuel, ihf m hs.1 (by omega), ihv m hs.2 (by omega), Res.bind]
      | sry =>
        have hs : noRedex Expr.sry = true ∧ noRedex v = true := by
          have hx : (noRedex Expr.sry && noRedex v) = true := hnr
          simp only [Bool.and_eq_true] at hx
          exact hx
        simp [simp_fuel, ihf m hs.1 (by omega), ihv m hs.2 (by omega), Res.bind]
  | ident n =>
    intro fuel _ hsz
    cases fuel with
    | zero => exact absurd hsz (by have := expr_one_le_sizeOf (.ident n); omega)
    | succ m => rfl
  | error =>
    intro fuel _ hsz
    cases fuel with
    | zero => exact absurd hsz (by have := expr_one_le_sizeOf .error; omega)
    | succ m => rfl
  | ref i =>
    intro fuel _ hsz
    cases fuel with
    | zero => exact absurd hsz (by have := expr_one_le_sizeOf (.ref i); omega)
    | succ m => rfl
  | binding id ty _ =>
    intro fuel _ hsz
    cases fuel with
    | zero =>
      exact absurd hsz (by have := expr_one_le_sizeOf (.binding id ty); omega)
    | succ m => rfl
  | sry =>
    intro fuel _ hsz
    cases fuel with
    | zero => exact absurd hsz (by have := expr_one_le_sizeOf .sry; omega)
    | succ m => rfl

/-- The block-comment scan consumes exactly up to the closing `*/` when
the body contains no `*`. -/
theorem blockBody_append_close :
    ∀ (body rest : List Char), body.all (fun c => c != '*') = true →
      blockBody (body ++ '*' :: '/' :: rest) = some (body.length + 2) := by
  intro body
  induction body with
  | nil => intro rest _; rfl
  | cons c cs ih =>
    intro rest hall
    simp only [List.all_cons, Bool.and_eq_true, bne_iff_ne] at hall
    rw [List.cons_append, blockBody.eq_def]
    simp only [if_neg hall.1, ih rest hall.2, Option.map_some',
      List.length_cons, Option.some.injEq]

/-- Indexing just past a prefix finds the element after it. -/
theorem get?_append_len {α : Type} :
    ∀ (pre : List α) (entry : α) (post : List α),
      (pre ++ entry :: post).get? pre.length = some entry := by
  intro pre entry post
  induction pre with
  | nil => rfl
  | cons p ps ih => simpa using ih

/-- Out-of-range list indexing yields `none`. -/
theorem list_get?_none {α : Type} :
    ∀ (l : List α) (n : Nat), l.length ≤ n → l.get? n = none := by
  intro l
  induction l with
  | nil => intro n _; rfl
  | cons x xs ih =>
    intro n h
    cases n with
    | zero => simp at h
    | succ m => simpa using ih m (by simpa using h)

/-- The `application` branch of `type_of` is exactly
`apply_type` applied to the function's synthesised type, as in
`src/index.ts` lines 50-53; this reconciles the structurally recursive
inlining in our `type_of` with the source's mutual formulation. -/
theorem type_of_app_eq (fuel : Nat) (defs : Defs) (f v : Expr)
    (refs : List Expr) :
    type_of fuel defs (.app f v) refs =
      Res.bind (type_of fuel defs f refs) fun fty =>
        apply_type fuel defs fty v refs := by
  cases hf : type_of fuel defs f refs with
  | err => simp [type_of, hf, Res.bind]
  | fuelOut => simp [type_of, hf, Res.bind]
  | ok fty =>
    cases fty with
    | pi head tl =>
      simp only [type_of, hf, Res.bind, apply_type, member_of]
      cases hv : type_of fuel defs v refs with
      | err => rfl
      | fuelOut => rfl
      | ok vty =>
        cases hd : deep_eq vty head with
        | none => simp [hd]
        | some b => cases b <;> simp [hd]
    | lambda h t => simp [type_of, hf, Res.bind, apply_type]
    | app a b => simp [type_of, hf, Res.bind, apply_type]
    | ident n => simp [type_of, hf, Res.bind, apply_type]
    | error => simp [type_of, hf, Res.bind, apply_type]
    | ref i => simp [type_of, hf, Res.bind, apply_type]
    | binding id ty => simp [type_of, hf, Res.bind, apply_type]
    | sry => simp [type_of, hf, Res.bind, apply_type]

/-! ## Claims -/

/-- Claim C1, counterexample. The claim says the substituted value has
*every* `Ref` index in it increased by `i - 1` (formalised by
`replace_spec`, whose shift `shift_all` traverses Lambda nodes). The
source's shift `update_refs` leaves Lambda nodes untouched, so at depth 2
substituting the value `Lambda(Ident A, Ref 1)` for `Ref 2` keeps `Ref 1`
where the claim demands `Ref 2`. -/
theorem c1_counterexample :
    ¬ ∀ (tail value : Expr) (d : Nat), 1 ≤ d →
        replace tail value d = replace_spec tail value d := by
  intro h
  have hc := h (.ref 2) (.lambda (.ident "A") (.ref 1)) 2 (by omega)
  revert hc
  decide

/-- Claim C1, amended: substitution follows exactly the stated rules,
except that the shift applied to the substituted value at a matching
`Ref` adds `i - 1` only to `Ref` indices not enclosed in a Lambda node
(Lambda subtrees are returned unshifted), as `replace_spec_nl` states. -/
theorem c1_replace_rules :
    ∀ (tail value : Expr) (depth : Nat),
      replace tail value depth = replace_spec_nl tail value depth := by
  intro tail
  induction tail with
  | ref i =>
    intro value depth
    simp only [replace, replace_spec_nl]
    split
    · simp [*]
    · split <;> simp [*]
  | app f v ihf ihv =>
    intro value depth
    simp [replace, replace_spec_nl, ihf, ihv]
  | pi h t ihh iht =>
    intro value depth
    simp [replace, replace_spec_nl, ihh, iht]
  | lambda h t _ _ => intro value depth; rfl
  | ident n => intro value depth; rfl
  | error => intro value depth; rfl
  | binding id ty _ => intro value depth; rfl
  | sry => intro value depth; rfl

/-- Claim C2, counterexample. The claim says the stack entry is returned
with every *free* `Ref` index inside it increased by `i` (formalised by
`shift_free`). The source instead applies `update_refs`, which also
increments `Ref` indices bound by a `Pi` inside the entry: for the entry
`Pi(Ident T, Ref 1)` at `i = 1`, the code returns `Pi(Ident T, Ref 2)`
although `Ref 1` is bound inside the entry and a free-variable shift would
leave it alone. -/
theorem c2_counterexample :
    ¬ ∀ (fuel : Nat) (defs : Defs) (i : Nat) (refs : List Expr),
        1 ≤ i → i ≤ refs.length →
        type_of fuel defs (.ref i) refs =
          .ok (shift_free (refs.getD (i - 1) .error) i 0) := by
  intro h
  have hc := h 1 defs0 1 [.pi (.ident "T") (.ref 1)] (by omega) (by decide)
  revert hc
  decide

/-- Claim C2, amended: `type_of(Ref(i), refs)` with `1 ≤ i ≤ |refs|`
returns the `i`-th entry from the top of `refs` shifted by `update_refs`,
which adds `i` to every `Ref` index in the entry that is not inside a
Lambda node, regardless of whether that `Ref` is free or bound within the
entry. -/
theorem c2_ref_shift :
    ∀ (fuel : Nat) (defs : Defs) (pre : List Expr) (entry : Expr)
      (post : List Expr),
      type_of fuel defs (.ref (pre.length + 1)) (pre ++ entry :: post) =
        .ok (update_refs entry (pre.length + 1)) := by
  intro fuel defs pre entry post
  simp only [type_of, ref_type, get?_append_len]

/-- Claim C3, counterexample. `update_refs` does not add `k` to `Ref`
indices inside Lambda nodes: the Lambda expression
`Lambda(Ref 1, Ref 1)` is returned unchanged by `update_refs _ 1`,
whereas the claim (formalised by `shift_all`) demands
`Lambda(Ref 2, Ref 2)`. -/
theorem c3_counterexample :
    ¬ ∀ (e : Expr) (k : Nat), update_refs e k = shift_all e k := by
  intro h
  have hc := h (.lambda (.ref 1) (.ref 1)) 1
  revert hc
  decide

/-- Claim C3, amended: for every kernel expression containing no Lambda
node, `update_refs` adds `k` to the index of every `Ref` occurring
anywhere in it, without any depth adjustment; Lambda nodes themselves
(with everything inside them) are returned unchanged. -/
theorem c3_update_refs_no_lambda :
    ∀ (e : Expr) (k : Nat), containsLambda e = false →
      update_refs e k = shift_all e k := by
  intro e
  induction e with
  | app f v ihf ihv =>
    intro k hc
    simp only [containsLambda, Bool.or_eq_false_iff] at hc
    simp [update_refs, shift_all, ihf k hc.1, ihv k hc.2]
  | pi h t ihh iht =>
    intro k hc
    simp only [containsLambda, Bool.or_eq_false_iff] at hc
    simp [update_refs, shift_all, ihh k hc.1, iht k hc.2]
  | lambda h t _ _ => intro k hc; simp [containsLambda] at hc
  | ref i => intro k _; rfl
  | ident n => intro k _; rfl
  | error => intro k _; rfl
  | binding id ty _ => intro k _; rfl
  | sry => intro k _; rfl

/-- Claim C3, amended, witness at a concrete lambda-free expression. -/
theorem c3_witness :
    containsLambda (.app (.ref 1) (.ident "x")) = false ∧
      update_refs (.app (.ref 1) (.ident "x")) 2 =
        shift_all (.app (.ref 1) (.ident "x")) 2 :=
  ⟨by decide, c3_update_refs_no_lambda (.app (.ref 1) (.ident "x")) 2 (by decide)⟩

/-- Claim C4, counterexample. Normalisation is not idempotent: the beta
test inspects the function position before simplifying it, so for
`e = App(App(λT.Ref 1, λA.Ref 1), Ident c)` the first pass returns
`App(λA.Ref 1, Ident c)` (a new beta-redex), and a second pass reduces
that to `Ident c`. -/
theorem c4_counterexample :
    ¬ ∀ (e v w : Expr) (n m : Nat),
        simp_fuel n e = .ok v → simp_fuel m v = .ok w → w = v := by
  intro h
  have hc := h
    (.app (.app (.lambda (.ident "T") (.ref 1)) (.lambda (.ident "A") (.ref 1)))
      (.ident "c"))
    (.app (.lambda (.ident "A") (.ref 1)) (.ident "c"))
    (.ident "c") 10 10 (by decide) (by decide)
  revert hc
  decide

/-- Claim C4, amended: when normalisation of `e` terminates with a result
that contains no beta-redex (no application whose function position is a
lambda), that result is a fixed point of normalisation — idempotence holds
exactly on redex-free results, with any sufficient fuel. -/
theorem c4_idempotent_on_redex_free :
    ∀ (e v : Expr) (n : Nat), simp_fuel n e = .ok v → noRedex v = true →
      ∀ m : Nat, sizeOf v ≤ m → simp_fuel m v = .ok v := by
  intro e v n _ hnr m hm
  exact simp_fuel_of_noRedex v m hnr hm

/-- Claim C4, amended, witness at a concrete input. -/
theorem c4_witness :
    simp_fuel 1 (Expr.ref 1) = .ok (.ref 1) ∧ noRedex (Expr.ref 1) = true ∧
      sizeOf (Expr.ref 1) ≤ 2 ∧ simp_fuel 2 (Expr.ref 1) = .ok (.ref 1) :=
  ⟨by decide, by decide, by decide,
    c4_idempotent_on_redex_free (.ref 1) (.ref 1) 1 (by decide) (by decide) 2
      (by decide)⟩

/-- Claim C5, counterexample. The run on
`Nat : Type; zero : Nat := SORRY Nat;` does reach and register `zero`
(second conjunct: the lookup is not `none`), but the registered body is
not the identifier `Nat` as claimed (first conjunct): the driver stores
the resolved body unnormalised. -/
theorem c5_counterexample :
    finalLookup 10 prog5 "zero" ≠
        some ⟨.ident "Nat", some (.ident "Nat")⟩ ∧
      finalLookup 10 prog5 "zero" ≠ none := by
  constructor <;> decide

/-- Claim C5, amended: processing the two declarations succeeds, and
`zero` is registered with body the resolved expression
`App(Ident SORRY, Ident Nat)`; that expression is moreover its own
`simp_value` normal form — the SORRY-reduces-to-its-argument rule lives in
`apply_type` during type checking, not in normalisation, so the stored
body never becomes `Ident Nat`. -/
theorem c5_sorry_registration :
    run_driver 10 defs0 prog5 =
        .ok (("zero", ⟨.ident "Nat", some (.app (.ident "SORRY") (.ident "Nat"))⟩)
          :: ("Nat", ⟨.ident "Type", none⟩) :: defs0) ∧
      simp_fuel 10 (.app (.ident "SORRY") (.ident "Nat")) =
        .ok (.app (.ident "SORRY") (.ident "Nat")) := by
  constructor <;> decide

/-- Claim C6, counterexample. Checking a bodiless declaration can fail:
resolving the declared type `Ident Nat` in the seeded environment (where
`Nat` is not declared) throws "Nat not defined", exactly the
specification's scenario 5. -/
theorem c6_counterexample :
    ¬ ∀ (fuel : Nat) (defs : Defs) (s : Statement), s.dfn = none →
        check_stmt fuel defs s ≠ .err := by
  intro h
  exact h 1 defs0 ⟨"bad", .ident "Nat", none⟩ rfl (by decide)

/-- Claim C6, amended: for a declaration `name : τ;` without a body whose
type resolves successfully, checking never fails (no membership check is
run) and the environment is extended with the resolved type; in the
extended environment, `type_of` of the identifier `name` returns that
stored type for any `refs` stack. -/
theorem c6_axiom_declaration :
    ∀ (fuel : Nat) (defs : Defs) (name : String) (ty ty' : Expr)
      (refs : List Expr),
      rename defs ty [] = .ok ty' →
      check_stmt fuel defs ⟨name, ty, none⟩ =
          .ok (insertDef defs name ⟨ty', none⟩) ∧
        type_of fuel (insertDef defs name ⟨ty', none⟩) (.ident name) refs =
          .ok ty' := by
  intro fuel defs name ty ty' refs h
  constructor
  · simp [check_stmt, h, Res.bind]
  · simp [type_of, insertDef, lookupDef]

/-- Claim C6, amended, witness at a concrete declaration. -/
theorem c6_witness :
    check_stmt 1 defs0 ⟨"N", .ident "Type", none⟩ =
        .ok (insertDef defs0 "N" ⟨.ident "Type", none⟩) ∧
      type_of 1 (insertDef defs0 "N" ⟨.ident "Type", none⟩) (.ident "N") [] =
        .ok (.ident "Type") :=
  c6_axiom_declaration 1 defs0 "N" (.ident "Type") (.ident "Type") []
    (by decide)

/-- Claim C7: the driver loop of `src/index.ts` checks a valid input and
completes with the final environment as its only outcome; the `write`
function imported on line 1 is never invoked after the loop, so no
`./dump.json` is produced (the claim describes the earlier revision in
`src/unnamed/part_001`, which ends with a `write("./dump.json", ...)`
call). -/
theorem c7_driver_completes :
    run_driver 1 defs0 [⟨"Nat", .ident "Type", none⟩] =
      .ok (("Nat", ⟨.ident "Type", none⟩) :: defs0) := by decide

/-- Claim C8, counterexample. The input `/*a**/` begins with `/*` and a
`*/` occurs later (at offset 4), yet the lexer produces no token at all:
the block-comment regex consumes the `*` at offset 3 together with the
following `*` as a skipped pair, reaches end of input, fails, and the `/`
then matches no punctuation rule, so the TypeScript throws "lexer consumed
no input". -/
theorem c8_counterexample :
    ¬ ∀ (rest : List Char), hasClose rest = true →
        ∃ k, firstClose rest = some k ∧
          lex ('/' :: '*' :: rest) = some (.tComment, k + 4) := by
  intro h
  obtain ⟨k, hk, hl⟩ := h ['a', '*', '*', '/'] (by decide)
  have h2 : firstClose ['a', '*', '*', '/'] = some 2 := by decide
  have hks : k = 2 := Option.some.inj (hk.symm.trans h2)
  rw [hks] at hl
  have h3 : lex ('/' :: '*' :: ['a', '*', '*', '/']) = none := by decide
  rw [h3] at hl
  exact Option.noConfusion hl

/-- Claim C8, amended: when no `*` occurs strictly between the opening
`/*` and the closing `*/`, the lexer returns a block-comment token
spanning from the `/*` up to and including that first `*/` (length
`|body| + 4`). In general the scan skips any `*` that is immediately
followed by a character other than `/` together with that character, so
the token may extend past the first `*/`, or lexing may fail although a
`*/` occurs. -/
theorem c8_block_comment_starfree :
    ∀ (body rest : List Char), body.all (fun c => c != '*') = true →
      lex ('/' :: '*' :: (body ++ '*' :: '/' :: rest)) =
        some (.tComment, body.length + 4) := by
  intro body rest hall
  have h1 : isIdentChar '/' = false := by decide
  have h2 : isWsChar '/' = false := by decide
  have h3 : (['/', '/'].isPrefixOf
      ('/' :: '*' :: (body ++ '*' :: '/' :: rest))) = false := by
    simp [List.isPrefixOf]
  have h4 : (['/', '*'].isPrefixOf
      ('/' :: '*' :: (body ++ '*' :: '/' :: rest))) = true := by
    simp [List.isPrefixOf]
  simp only [lex, takeWhileLen, h1, h2, h3, h4, if_false, if_true,
    Bool.false_eq_true]
  simp only [List.drop_succ_cons, List.drop_zero, ne_eq, not_true_eq_false,
    if_false, Bool.false_eq_true]
  rw [blockBody_append_close body rest hall]
  have harith : 2 + (body.length + 2) = body.length + 4 := by omega
  simp [harith]

/-- Claim C8, amended, witness: `/*a*/` lexes to a comment of length 5. -/
theorem c8_witness :
    lex ['/', '*', 'a', '*', '/'] = some (.tComment, 5) := by
  have h := c8_block_comment_starfree ['a'] [] (by decide)
  simpa using h

/-- Claim C9: substitution (`replace`) throws on every tail containing a
Lambda node anywhere, and consequently `simp_value` throws on a beta-redex
`App(Lambda(h, b), arg)` whose body `b` contains a Lambda, whenever the
argument itself normalises. -/
theorem c9_lambda_substitution_errors :
    (∀ (tail value : Expr) (depth : Nat), containsLambda tail = true →
        replace tail value depth = none) ∧
      ∀ (fuel : Nat) (h b arg v : Expr), containsLambda b = true →
        simp_fuel fuel arg = .ok v →
        simp_fuel (fuel + 1) (.app (.lambda h b) arg) = .err := by
  constructor
  · exact replace_none_of_containsLambda
  · intro fuel h b arg v hb hv
    simp [simp_fuel, hv, Res.bind, replace_none_of_containsLambda b v 1 hb]

/-- Claim C9, witness at concrete inputs. -/
theorem c9_witness :
    replace (.lambda (.ident "T") (.ref 1)) (.ident "x") 1 = none ∧
      simp_fuel 2
        (.app (.lambda (.ident "T") (.lambda (.ident "A") (.ref 1)))
          (.ident "c")) = .err :=
  ⟨c9_lambda_substitution_errors.1 (.lambda (.ident "T") (.ref 1))
      (.ident "x") 1 (by decide),
    c9_lambda_substitution_errors.2 1 (.ident "T")
      (.lambda (.ident "A") (.ref 1)) (.ident "c") (.ident "c") (by decide)
      (by decide)⟩

/-- Claim C10: a `Ref(i)` whose index exceeds the size of the `refs`
stack makes `refs[refs.length - i]` an out-of-range (falsy) access, and
`type_of` returns the `Ref` itself unchanged without raising an error. -/
theorem c10_ref_out_of_range :
    ∀ (fuel : Nat) (defs : Defs) (i : Nat) (refs : List Expr),
      refs.length < i → type_of fuel defs (.ref i) refs = .ok (.ref i) := by
  intro fuel defs i refs h
  cases i with
  | zero => exact absurd h (by omega)
  | succ n =>
    simp only [type_of, ref_type, list_get?_none refs n (by omega)]

/-- Claim C10, witness at a concrete out-of-range index. -/
theorem c10_witness :
    type_of 1 defs0 (.ref 2) [.ident "T"] = .ok (.ref 2) :=
  c10_ref_out_of_range 1 defs0 2 [.ident "T"] (by decide)
